import Mathlib

/-!
Shallow embedding of `main.py` from the `analyze-reformagkh` repository:
the crawl/cache/parse pipeline (content cache, fetcher, region tree
builder, region persistence, listing parser/persistence, profile parser)
together with theorems settling the specification claims.

Python dicts are modelled as write lists with last-write-wins lookup
(`dlookup`); file contents are modelled as `List Char`; the filesystem is
a map from path to content; `Except Unit` models raised exceptions;
Python `float` values are modelled as exact rationals.
-/

namespace Reforma

/-! ### Python dict model: a list of writes, last write wins -/

def dlookup {κ ν : Type} [DecidableEq κ] : List (κ × ν) → κ → Option ν
  | [], _ => none
  | p :: rest, k =>
    match dlookup rest k with
    | some v => some v
    | none => if p.1 = k then some p.2 else none

theorem dlookup_nil {κ ν : Type} [DecidableEq κ] (k : κ) :
    dlookup ([] : List (κ × ν)) k = none := rfl

theorem dlookup_cons {κ ν : Type} [DecidableEq κ] (p : κ × ν) (rest : List (κ × ν)) (k : κ) :
    dlookup (p :: rest) k =
      match dlookup rest k with
      | some v => some v
      | none => if p.1 = k then some p.2 else none := rfl

theorem dlookup_append {κ ν : Type} [DecidableEq κ] (a b : List (κ × ν)) (k : κ) :
    dlookup (a ++ b) k =
      match dlookup b k with
      | some v => some v
      | none => dlookup a k := by
  induction a with
  | nil => cases h : dlookup b k <;> simp [dlookup, h]
  | cons p rest ih =>
    simp only [List.cons_append, dlookup_cons, ih]
    cases h : dlookup b k <;> cases h2 : dlookup rest k <;> simp

theorem dlookup_mem {κ ν : Type} [DecidableEq κ] {l : List (κ × ν)} {k : κ} {v : ν}
    (h : dlookup l k = some v) : (k, v) ∈ l := by
  induction l with
  | nil => simp [dlookup] at h
  | cons p rest ih =>
    rw [dlookup_cons] at h
    cases h2 : dlookup rest k with
    | some w =>
      rw [h2] at h
      cases h
      exact List.mem_cons_of_mem _ (ih h2)
    | none =>
      rw [h2] at h
      by_cases hk : p.1 = k
      · rw [if_pos hk] at h
        cases h
        have : p = (k, p.2) := by
          obtain ⟨a, b⟩ := p
          simp at hk
          simp [hk]
        rw [← this]
        exact List.mem_cons_self _ _
      · rw [if_neg hk] at h
        cases h

theorem dlookup_eq_none {κ ν : Type} [DecidableEq κ] {l : List (κ × ν)} {k : κ}
    (h : dlookup l k = none) : ∀ v, (k, v) ∉ l := by
  induction l with
  | nil => intro v hv; cases hv
  | cons p rest ih =>
    rw [dlookup_cons] at h
    cases h2 : dlookup rest k with
    | some w => rw [h2] at h; cases h
    | none =>
      rw [h2] at h
      intro v hv
      cases hv with
      | head => simp at h
      | tail _ hm => exact ih h2 v hm

theorem dlookup_isSome_of_mem {κ ν : Type} [DecidableEq κ] {l : List (κ × ν)} {k : κ} {v : ν}
    (h : (k, v) ∈ l) : (dlookup l k).isSome := by
  cases hd : dlookup l k with
  | some w => rfl
  | none => exact absurd h (dlookup_eq_none hd v)

/-! ### get_chunks (src/main.py lines 151-156)

    def get_chunks(sequence, count):
        count = min(count, len(sequence))
        chunks = [[] for _ in range(count)]
        for index, item in enumerate(sequence):
            chunks[index % count].append(item)
        return chunks
-/

def distributeChunks {α : Type} (c : Nat) : List (Nat × α) → List (List α) → List (List α)
  | [], chunks => chunks
  | (i, x) :: rest, chunks =>
    distributeChunks c rest (chunks.set (i % c) (chunks.getD (i % c) [] ++ [x]))

def get_chunks {α : Type} (sequence : List α) (count : Nat) : List (List α) :=
  let c := min count sequence.length
  distributeChunks c sequence.enum (List.replicate c [])

theorem distributeChunks_length {α : Type} (c : Nat) (ps : List (Nat × α))
    (chunks : List (List α)) : (distributeChunks c ps chunks).length = chunks.length := by
  induction ps generalizing chunks with
  | nil => rfl
  | cons p rest ih =>
    obtain ⟨i, x⟩ := p
    simp [distributeChunks, ih]

theorem getD_set_self {α : Type} (l : List (List α)) (i : Nat) (v : List α)
    (h : i < l.length) : (l.set i v).getD i [] = v := by
  simp [List.getD, List.getElem?_set_self, h]

theorem getD_set_ne {α : Type} (l : List (List α)) (i j : Nat) (v : List α)
    (h : i ≠ j) : (l.set i v).getD j [] = l.getD j [] := by
  simp [List.getD, List.getElem?_set_ne h]

theorem distributeChunks_getD {α : Type} (c : Nat) (ps : List (Nat × α))
    (chunks : List (List α)) (j : Nat) (hc : chunks.length = c) (hj : j < c)
    (hp : ∀ p ∈ ps, p.1 % c < c) :
    (distributeChunks c ps chunks).getD j [] =
      chunks.getD j [] ++ (ps.filter (fun p => p.1 % c = j)).map Prod.snd := by
  induction ps generalizing chunks with
  | nil => simp [distributeChunks]
  | cons p rest ih =>
    obtain ⟨i, x⟩ := p
    simp only [distributeChunks]
    rw [ih _ (by simp [hc]) (fun q hq => hp q (List.mem_cons_of_mem _ hq))]
    by_cases hij : i % c = j
    · rw [hij, getD_set_self _ _ _ (by rw [hc]; exact hj)]
      simp [hij, List.filter_cons, List.append_assoc]
    · rw [getD_set_ne _ _ _ _ hij]
      simp [hij, List.filter_cons]

theorem sum_indicator_range (m v : Nat) (hv : v < m) :
    ((List.range m).map (fun j => if v = j then 1 else 0)).sum = 1 := by
  induction m with
  | zero => omega
  | succ m ih =>
    rw [List.range_succ]
    by_cases h : v = m
    · subst h
      have : ∀ j ∈ List.range v, (if v = j then 1 else 0) = 0 := by
        intro j hj
        rw [List.mem_range] at hj
        simp [Nat.ne_of_gt hj]
      simp [List.map_append, List.sum_append, List.map_congr_left this]
    · have hvm : v < m := by omega
      simp [List.map_append, List.sum_append, ih hvm, h]

theorem sum_filter_lengths {β : Type} (f : β → Nat) (ps : List β) (m : Nat)
    (h : ∀ p ∈ ps, f p < m) :
    ((List.range m).map (fun j => (ps.filter (fun p => f p = j)).length)).sum
      = ps.length := by
  induction ps with
  | nil => simp
  | cons p rest ih =>
    have hrest := ih (fun q hq => h q (List.mem_cons_of_mem _ hq))
    have hsplit : ∀ j, (List.filter (fun q => decide (f q = j)) (p :: rest)).length =
        (if f p = j then 1 else 0) +
          (List.filter (fun q => decide (f q = j)) rest).length := by
      intro j
      by_cases hj : f p = j
      · simp [List.filter_cons, hj]
        omega
      · simp [List.filter_cons, hj]
    calc ((List.range m).map
          (fun j => (List.filter (fun q => decide (f q = j)) (p :: rest)).length)).sum
        = ((List.range m).map (fun j => (if f p = j then 1 else 0) +
            (List.filter (fun q => decide (f q = j)) rest).length)).sum := by
          exact congrArg _ (List.map_congr_left (fun j _ => hsplit j))
      _ = ((List.range m).map (fun j => if f p = j then 1 else 0)).sum +
            ((List.range m).map
              (fun j => (List.filter (fun q => decide (f q = j)) rest).length)).sum := by
          rw [← List.sum_map_add]
      _ = 1 + rest.length := by
          rw [hrest, sum_indicator_range m (f p) (h p (List.mem_cons_self _ _))]
      _ = (p :: rest).length := by simp [Nat.add_comm]

theorem get_chunks_eq_map_range {α : Type} (s : List α) (n : Nat)
    (hs : s ≠ []) (hn : 1 ≤ n) :
    get_chunks s n = (List.range (min n s.length)).map
      (fun j => (s.enum.filter (fun p => p.1 % min n s.length = j)).map Prod.snd) := by
  have hm : 0 < min n s.length := by
    have : 0 < s.length := List.length_pos.mpr hs
    omega
  apply List.ext_getElem?
  intro j
  have hlen : (get_chunks s n).length = min n s.length := by
    simp [get_chunks, distributeChunks_length]
  have hrlen : ((List.range (min n s.length)).map
      (fun j => (s.enum.filter (fun p => p.1 % min n s.length = j)).map Prod.snd)).length
      = min n s.length := by simp
  by_cases hj : j < min n s.length
  · have hgd : (get_chunks s n).getD j [] =
        (s.enum.filter (fun p => p.1 % min n s.length = j)).map Prod.snd := by
      have := distributeChunks_getD (min n s.length) s.enum
        (List.replicate (min n s.length) []) j (by simp) hj
        (fun p _ => Nat.mod_lt _ hm)
      rw [get_chunks]
      rw [this]
      simp [List.getD, List.getElem?_replicate, hj]
    have h1 : (get_chunks s n)[j]? = some ((get_chunks s n).getD j []) := by
      rw [List.getD_eq_getElem?_getD]
      cases hq : (get_chunks s n)[j]? with
      | some v => simp [hq]
      | none => rw [List.getElem?_eq_none_iff] at hq; omega
    rw [h1, hgd, List.getElem?_map, List.getElem?_range hj]
    rfl
  · rw [List.getElem?_eq_none_iff.mpr (by omega), List.getElem?_eq_none_iff.mpr (by omega)]

/-- C9: for a non-empty list `s` and count `n ≥ 1`, `get_chunks s n` partitions
`s` round-robin by index into `min n s.length` chunks: the chunk list has
length `min n s.length`; chunk `j` is exactly the subsequence of elements whose
index is congruent to `j` modulo `min n s.length`; the element at index `i`
lands in chunk `i % min n s.length`; no chunk is empty; and the chunk lengths
sum to `s.length` (every element is in exactly one chunk). -/
theorem get_chunks_partition {α : Type} (s : List α) (n : Nat)
    (hs : s ≠ []) (hn : 1 ≤ n) :
    (get_chunks s n).length = min n s.length ∧
    (∀ j, j < min n s.length →
      (get_chunks s n).getD j [] =
        (s.enum.filter (fun p => p.1 % min n s.length = j)).map Prod.snd) ∧
    (∀ i x, s[i]? = some x → x ∈ (get_chunks s n).getD (i % min n s.length) []) ∧
    (∀ j, j < min n s.length → (get_chunks s n).getD j [] ≠ []) ∧
    ((get_chunks s n).map List.length).sum = s.length := by
  have hm : 0 < min n s.length := by
    have : 0 < s.length := List.length_pos.mpr hs
    omega
  have heq := get_chunks_eq_map_range s n hs hn
  have hlen : (get_chunks s n).length = min n s.length := by
    simp [get_chunks, distributeChunks_length]
  have hchar : ∀ j, j < min n s.length →
      (get_chunks s n).getD j [] =
        (s.enum.filter (fun p => p.1 % min n s.length = j)).map Prod.snd := by
    intro j hj
    rw [heq, List.getD_eq_getElem?_getD, List.getElem?_map, List.getElem?_range hj]
    rfl
  have hplace : ∀ i x, s[i]? = some x →
      x ∈ (get_chunks s n).getD (i % min n s.length) [] := by
    intro i x hx
    have hmem : (i, x) ∈ s.enum := List.mk_mem_enum_iff_getElem?.mpr hx
    rw [hchar _ (Nat.mod_lt _ hm)]
    exact List.mem_map.mpr ⟨(i, x), List.mem_filter.mpr ⟨hmem, by simp⟩, rfl⟩
  refine ⟨hlen, hchar, hplace, ?_, ?_⟩
  · intro j hj
    have hjs : j < s.length := by omega
    obtain ⟨x, hx⟩ : ∃ x, s[j]? = some x := by
      cases hq : s[j]? with
      | some v => exact ⟨v, rfl⟩
      | none => rw [List.getElem?_eq_none_iff] at hq; omega
    have := hplace j x hx
    rw [Nat.mod_eq_of_lt hj] at this
    intro hempty
    rw [hempty] at this
    cases this
  · rw [heq, List.map_map]
    have : ∀ j ∈ List.range (min n s.length),
        (List.length ∘ fun j =>
          (s.enum.filter (fun p => p.1 % min n s.length = j)).map Prod.snd) j =
        (s.enum.filter (fun p => p.1 % min n s.length = j)).length := by
      intro j _
      simp
    rw [List.map_congr_left this,
      sum_filter_lengths (fun p => p.1 % min n s.length) s.enum (min n s.length)
        (fun p _ => Nat.mod_lt _ hm)]
    simp [List.enum_length]

/-- Witness for C9 at `s = [10, 20, 30]`, `n = 2`. -/
theorem get_chunks_partition_witness :
    ([10, 20, 30] : List Nat) ≠ [] ∧ 1 ≤ 2 ∧
    ((get_chunks [10, 20, 30] 2).length = min 2 3 ∧
    (∀ j, j < min 2 3 →
      (get_chunks [10, 20, 30] 2).getD j [] =
        (([10, 20, 30] : List Nat).enum.filter (fun p => p.1 % min 2 3 = j)).map Prod.snd) ∧
    (∀ i x, ([10, 20, 30] : List Nat)[i]? = some x →
      x ∈ (get_chunks [10, 20, 30] 2).getD (i % min 2 3) []) ∧
    (∀ j, j < min 2 3 → (get_chunks [10, 20, 30] 2).getD j [] ≠ []) ∧
    ((get_chunks [10, 20, 30] 2).map List.length).sum = 3) := by
  refine ⟨by decide, by decide, ?_⟩
  have h := get_chunks_partition ([10, 20, 30] : List Nat) 2 (by decide) (by decide)
  simpa using h

/-! ### Content cache and fetcher (src/main.py lines 28-36, 158-251)

File contents are modelled as `List Char` and the filesystem as a map from
path to optional content.  `hashlib.sha1(...).hexdigest()` is an external
primitive; it is passed in as a parameter `sha1hex` applied to the UTF-8
bytes of the url, exactly as `hash_url` computes them. -/

def DATA_DIR : String := "data"

def HTML_DIR : String := DATA_DIR ++ "/" ++ "html"

def HTML_LIST : String := HTML_DIR ++ "/" ++ "list.txt"

def FS : Type := String → Option (List Char)

def fsWrite (fs : FS) (path : String) (content : List Char) : FS :=
  fun q => if q = path then some content else fs q

def hash_url (sha1hex : List UInt8 → String) (url : String) : String :=
  sha1hex url.toUTF8.toList

def get_html_filename (sha1hex : List UInt8 → String) (url : String) : String :=
  hash_url sha1hex url ++ ".html"

def get_html_path (sha1hex : List UInt8 → String) (url : String) : String :=
  HTML_DIR ++ "/" ++ get_html_filename sha1hex url

def update_urls_cache (sha1hex : List UInt8 → String) (url path : String) (fs : FS) : FS :=
  fsWrite fs path
    (((fs path).getD []) ++ (hash_url sha1hex url).data ++ '\t' :: url.data ++ ['\n'])

def update_html_cache (sha1hex : List UInt8 → String) (url : String) (fs : FS) : FS :=
  update_urls_cache sha1hex url HTML_LIST fs

def dump_html (sha1hex : List UInt8 → String) (url : String) (html : Option String)
    (fs : FS) : FS :=
  update_html_cache sha1hex url (fsWrite fs (get_html_path sha1hex url) (html.getD "").data)

/-- Python line iteration over a file: split on newline characters; a line is
returned without its terminator (the terminator is removed here rather than by
the subsequent `strip()`, which erases it either way); no empty trailing
line. -/
def splitLinesAux (cur : List Char) : List Char → List (List Char)
  | [] => if cur = [] then [] else [cur]
  | c :: cs => if c = '\n' then cur :: splitLinesAux [] cs else splitLinesAux (cur ++ [c]) cs

/-- Python `str.strip()`: remove leading and trailing whitespace. -/
def pyStripChars (cs : List Char) : List Char :=
  ((cs.dropWhile Char.isWhitespace).reverse.dropWhile Char.isWhitespace).reverse

/-- Python `line.split(tab, 1)` when it yields two parts; `none` when the
line has no tab, in which case unpacking `hash, url = ...` raises. -/
def pySplitTab1 : List Char → Option (List Char × List Char)
  | [] => none
  | c :: cs =>
    if c = '\t' then some ([], cs)
    else (pySplitTab1 cs).map (fun p => (c :: p.1, p.2))

def list_urls_cache (content : List Char) : Except Unit (List (List Char)) :=
  (splitLinesAux [] content).mapM fun line =>
    match pySplitTab1 (pyStripChars line) with
    | some p => .ok p.2
    | none => .error ()

def list_html_cache (fs : FS) : Except Unit (List (List Char)) :=
  match fs HTML_LIST with
  | none => .error ()
  | some c => list_urls_cache c

structure CrawlState where
  fs : FS
  gets : List String

def curl_url (net : String → Option String) (url : String) (st : CrawlState) :
    Option String × CrawlState :=
  (net url, { st with gets := st.gets ++ [url] })

def fetch_url (sha1hex : List UInt8 → String) (net : String → Option String)
    (url : String) (st : CrawlState) : CrawlState :=
  let r := curl_url net url st
  { r.2 with fs := dump_html sha1hex url r.1 r.2.fs }

theorem get_html_path_ne_html_list (sha1hex : List UInt8 → String) (url : String)
    (h40 : (hash_url sha1hex url).length = 40) :
    get_html_path sha1hex url ≠ HTML_LIST := by
  intro h
  have hl := congrArg String.length h
  rw [get_html_path, get_html_filename] at hl
  rw [String.length_append, String.length_append, String.length_append, h40] at hl
  have h1 : HTML_DIR.length = 9 := by decide
  have h2 : HTML_LIST.length = 18 := by decide
  have h3 : ("/" : String).length = 1 := by decide
  have h4 : (".html" : String).length = 5 := by decide
  omega

/-- C8: `dump_html url c` stores the blob (empty when `c` is `None`) at
`HTML_DIR/{hex(SHA1(utf8(url)))}.html` and appends exactly one
`hash TAB url NEWLINE` line to the index file `HTML_LIST`.  The hypothesis
records that a SHA-1 hexdigest is 40 characters long. -/
theorem dump_html_stores_blob_and_appends_index (sha1hex : List UInt8 → String)
    (url : String) (html : Option String) (fs : FS)
    (h40 : (hash_url sha1hex url).length = 40) :
    dump_html sha1hex url html fs (get_html_path sha1hex url) = some (html.getD "").data ∧
    dump_html sha1hex url html fs HTML_LIST =
      some (((fs HTML_LIST).getD []) ++
        (hash_url sha1hex url).data ++ '\t' :: url.data ++ ['\n']) := by
  have hne := get_html_path_ne_html_list sha1hex url h40
  constructor
  · simp [dump_html, update_html_cache, update_urls_cache, fsWrite, hne]
  · simp [dump_html, update_html_cache, update_urls_cache, fsWrite, Ne.symm hne]

/-- Witness for C8: a concrete 40-character digest function, url and
filesystem. -/
theorem dump_html_stores_blob_and_appends_index_witness :
    (hash_url (fun _ => "0123456789abcdef0123456789abcdef01234567") "u").length = 40 ∧
    (dump_html (fun _ => "0123456789abcdef0123456789abcdef01234567") "u" (some "page")
        (fun _ => none) (get_html_path (fun _ => "0123456789abcdef0123456789abcdef01234567") "u")
      = some "page".data ∧
    dump_html (fun _ => "0123456789abcdef0123456789abcdef01234567") "u" (some "page")
        (fun _ => none) HTML_LIST =
      some ((((fun _ => none : FS) HTML_LIST).getD []) ++
        (hash_url (fun _ => "0123456789abcdef0123456789abcdef01234567") "u").data ++
          '\t' :: "u".data ++ ['\n'])) := by
  refine ⟨by decide, ?_⟩
  exact dump_html_stores_blob_and_appends_index
    (fun _ => "0123456789abcdef0123456789abcdef01234567") "u" (some "page")
    (fun _ => none) (by decide)

def joinLines (ls : List (List Char)) : List Char :=
  (ls.map (· ++ ['\n'])).flatten

theorem splitLinesAux_line (cur xs rest : List Char) (hxs : '\n' ∉ xs) :
    splitLinesAux cur (xs ++ '\n' :: rest) = (cur ++ xs) :: splitLinesAux [] rest := by
  induction xs generalizing cur with
  | nil => simp [splitLinesAux]
  | cons c cs ih =>
    have hc : c ≠ '\n' := fun h => hxs (h ▸ List.mem_cons_self _ _)
    have hcs : '\n' ∉ cs := fun h => hxs (List.mem_cons_of_mem _ h)
    simp only [List.cons_append, splitLinesAux, if_neg hc, List.append_eq]
    rw [ih (cur ++ [c]) hcs]
    simp

theorem splitLinesAux_joinLines (ls : List (List Char)) (rest : List Char)
    (hls : ∀ l ∈ ls, '\n' ∉ l) :
    splitLinesAux [] (joinLines ls ++ rest) = ls ++ splitLinesAux [] rest := by
  induction ls with
  | nil => simp [joinLines]
  | cons l ls ih =>
    have h1 : '\n' ∉ l := hls l (List.mem_cons_self _ _)
    have h2 : ∀ x ∈ ls, '\n' ∉ x := fun x hx => hls x (List.mem_cons_of_mem _ hx)
    have : joinLines (l :: ls) ++ rest = l ++ '\n' :: (joinLines ls ++ rest) := by
      simp [joinLines]
    rw [this, splitLinesAux_line [] l _ h1, ih h2]
    simp

theorem pySplitTab1_append (a b : List Char) (ha : '\t' ∉ a) :
    pySplitTab1 (a ++ '\t' :: b) = some (a, b) := by
  induction a with
  | nil => simp [pySplitTab1]
  | cons c cs ih =>
    have hc : c ≠ '\t' := fun h => ha (h ▸ List.mem_cons_self _ _)
    have hcs : '\t' ∉ cs := fun h => ha (List.mem_cons_of_mem _ h)
    simp [pySplitTab1, hc, ih hcs]

theorem exceptMapM_append {α β : Type} (f : α → Except Unit β) (a b : List α)
    (xa : List β) (xb : List β) (ha : a.mapM f = .ok xa) (hb : b.mapM f = .ok xb) :
    (a ++ b).mapM f = .ok (xa ++ xb) := by
  induction a generalizing xa with
  | nil =>
    simp only [List.mapM_nil, pure, Except.pure] at ha
    cases ha
    simpa using hb
  | cons x xs ih =>
    rw [List.mapM_cons] at ha
    cases hf : f x with
    | error e => rw [hf] at ha; simp [Bind.bind, Except.bind] at ha
    | ok v =>
      rw [hf] at ha
      cases hxs : xs.mapM f with
      | error e => rw [hxs] at ha; simp [Bind.bind, Except.bind] at ha
      | ok vs =>
        rw [hxs] at ha
        simp only [Bind.bind, Except.bind, pure, Except.pure] at ha
        cases ha
        rw [List.cons_append, List.mapM_cons, hf]
        simp only [Bind.bind, Except.bind]
        rw [ih vs hxs]
        simp [pure, Except.pure]

/-- Counterexample to C1 as stated: `fetch_url` never consults the cache, so a
second `fetch_url` of the same url issues one more HTTP GET, not zero.  With a
concrete digest function, network and empty initial state, the first call
leaves one GET in the log and the second call leaves two. -/
theorem fetch_url_second_call_hits_network :
    (fetch_url (fun _ => "h") (fun _ => some "x") "u"
      (fetch_url (fun _ => "h") (fun _ => some "x") "u" ⟨fun _ => none, []⟩)).gets =
        ["u", "u"] ∧
    (fetch_url (fun _ => "h") (fun _ => some "x") "u" ⟨fun _ => none, []⟩).gets = ["u"] ∧
    ¬ ((fetch_url (fun _ => "h") (fun _ => some "x") "u"
        (fetch_url (fun _ => "h") (fun _ => some "x") "u" ⟨fun _ => none, []⟩)).gets.length =
      (fetch_url (fun _ => "h") (fun _ => some "x") "u" ⟨fun _ => none, []⟩).gets.length) := by
  refine ⟨rfl, rfl, by decide⟩

/-- C1 amended: after one call of `fetch_url u` the cache index contains `u`
(`list_html_cache` succeeds and lists `u`), but every call of `fetch_url` —
including a call on an already-cached url — performs exactly one network GET;
the cache is written through, never consulted.  Hypotheses: the digest is 40
characters with no tab, newline or surrounding whitespace, the url contains no
newline, and the pre-existing index file is a parseable sequence of
newline-terminated lines. -/
theorem fetch_url_caches_but_always_fetches (sha1hex : List UInt8 → String)
    (net : String → Option String) (url : String) (st : CrawlState)
    (ls : List (List Char)) (L : List (List Char))
    (h40 : (hash_url sha1hex url).length = 40)
    (htab : '\t' ∉ (hash_url sha1hex url).data)
    (hnl1 : '\n' ∉ (hash_url sha1hex url).data)
    (hnl2 : '\n' ∉ url.data)
    (hstrip : pyStripChars ((hash_url sha1hex url).data ++ '\t' :: url.data) =
      (hash_url sha1hex url).data ++ '\t' :: url.data)
    (hls : ∀ l ∈ ls, '\n' ∉ l)
    (hpre : (st.fs HTML_LIST).getD [] = joinLines ls)
    (hparse : list_urls_cache (joinLines ls) = .ok L) :
    (fetch_url sha1hex net url st).gets = st.gets ++ [url] ∧
    list_html_cache (fetch_url sha1hex net url st).fs = .ok (L ++ [url.data]) ∧
    url.data ∈ L ++ [url.data] := by
  refine ⟨rfl, ?_, List.mem_append_right _ (List.mem_cons_self _ _)⟩
  have hidx := (dump_html_stores_blob_and_appends_index sha1hex url
    (net url) st.fs h40).2
  have hfs : (fetch_url sha1hex net url st).fs = dump_html sha1hex url (net url) st.fs := rfl
  have hbody : '\n' ∉ (hash_url sha1hex url).data ++ '\t' :: url.data := by
    intro h
    rcases List.mem_append.mp h with h | h
    · exact hnl1 h
    · rcases List.mem_cons.mp h with h | h
      · cases h
      · exact hnl2 h
  have hcache : (fetch_url sha1hex net url st).fs HTML_LIST =
      some (joinLines ls ++ (hash_url sha1hex url).data ++ '\t' :: url.data ++ ['\n']) := by
    rw [hfs, hidx, hpre]
  have hred : list_html_cache (fetch_url sha1hex net url st).fs =
      list_urls_cache
        (joinLines ls ++ (hash_url sha1hex url).data ++ '\t' :: url.data ++ ['\n']) := by
    unfold list_html_cache
    rw [hcache]
  have hsplit : splitLinesAux []
      (joinLines ls ++ (hash_url sha1hex url).data ++ '\t' :: url.data ++ ['\n']) =
      ls ++ [(hash_url sha1hex url).data ++ '\t' :: url.data] := by
    have e1 : joinLines ls ++ (hash_url sha1hex url).data ++ '\t' :: url.data ++ ['\n'] =
        joinLines ls ++ (((hash_url sha1hex url).data ++ '\t' :: url.data) ++ '\n' :: []) := by
      simp
    rw [e1, splitLinesAux_joinLines ls _ hls, splitLinesAux_line [] _ [] hbody]
    simp [splitLinesAux]
  rw [hred]
  unfold list_urls_cache
  rw [hsplit]
  have hone : [(hash_url sha1hex url).data ++ '\t' :: url.data].mapM
      (fun line => match pySplitTab1 (pyStripChars line) with
        | some p => Except.ok p.2
        | none => Except.error ()) = .ok [url.data] := by
    rw [List.mapM_cons, hstrip, pySplitTab1_append _ _ htab]
    rfl
  have hjoin : splitLinesAux [] (joinLines ls) = ls := by
    have h2 := splitLinesAux_joinLines ls [] hls
    simpa [splitLinesAux] using h2
  have hprev : ls.mapM (fun line => match pySplitTab1 (pyStripChars line) with
      | some p => Except.ok p.2
      | none => Except.error ()) = .ok L := by
    have h2 := hparse
    unfold list_urls_cache at h2
    rw [hjoin] at h2
    exact h2
  exact exceptMapM_append _ ls _ L [url.data] hprev hone

/-- Witness for the amended C1 at a concrete digest, url, network and empty
cache. -/
theorem fetch_url_caches_but_always_fetches_witness :
    ((hash_url (fun _ => "0123456789abcdef0123456789abcdef01234567") "u").length = 40 ∧
      pyStripChars ((hash_url (fun _ => "0123456789abcdef0123456789abcdef01234567") "u").data
          ++ '\t' :: "u".data) =
        (hash_url (fun _ => "0123456789abcdef0123456789abcdef01234567") "u").data
          ++ '\t' :: "u".data) ∧
    ((fetch_url (fun _ => "0123456789abcdef0123456789abcdef01234567") (fun _ => some "x") "u"
        ⟨fun _ => none, []⟩).gets = [] ++ ["u"] ∧
    list_html_cache (fetch_url (fun _ => "0123456789abcdef0123456789abcdef01234567")
        (fun _ => some "x") "u" ⟨fun _ => none, []⟩).fs = .ok ([] ++ ["u".data]) ∧
    "u".data ∈ ([] : List (List Char)) ++ ["u".data]) := by
  refine ⟨⟨by decide, by decide⟩, ?_⟩
  exact fetch_url_caches_but_always_fetches
    (fun _ => "0123456789abcdef0123456789abcdef01234567") (fun _ => some "x") "u"
    ⟨fun _ => none, []⟩ [] [] (by decide) (by decide) (by decide) (by decide) (by decide)
    (by intro l hl; cases hl) rfl rfl

/-! ### Region records and the region tree builder
(src/main.py lines 39-46, 262-304)

A parsed listing page is abstracted as its extracted rows
`(name, tid, buildings)`; the mapping from url to rows (`load_html` composed
with the soup row extraction of `parse_regions_list`) is a parameter
`site`. -/

inductive RegionRecord : Type where
  | mk (parent : Option RegionRecord) (name : String) (id : Option Nat) (buildings : Int)

def RegionRecord.parent : RegionRecord → Option RegionRecord
  | .mk p _ _ _ => p

def RegionRecord.name : RegionRecord → String
  | .mk _ n _ _ => n

def RegionRecord.id : RegionRecord → Option Nat
  | .mk _ _ i _ => i

def RegionRecord.buildings : RegionRecord → Int
  | .mk _ _ _ b => b

/-- Python `parent.id if parent else None`. -/
def parentIdOf : Option RegionRecord → Option Nat
  | none => none
  | some r => r.id

abbrev RawRow : Type := String × Option Nat × Int

def ROOT_URL : String := "https://www.reformagkh.ru/myhouse?geo=reset"

def parse_regions_list (rows : List RawRow) (parent : Option RegionRecord) :
    List RegionRecord :=
  rows.map fun r => .mk parent r.1 r.2.1 r.2.2

def subregions_list_url (id : Nat) : Option String :=
  if id ≠ 0 then some ("https://www.reformagkh.ru/myhouse?tid=" ++ toString id) else none

def load_raw_regions (site : String → List RawRow) : List RegionRecord :=
  parse_regions_list (site ROOT_URL) none

/-- Probe branch of the `load_raw_subregions` loop body once the url is
known; `.error` models the exception raised by `load_html(None)` when
`subregions_list_url` returned `None` (a region with `id = 0`). -/
def subregionStepUrl (site : String → List RawRow) (region : RegionRecord) :
    Option String → Except Unit (List RegionRecord)
  | none => .error ()
  | some url =>
    let subregions := parse_regions_list (site url) (some region)
    if subregions.isEmpty then .ok [region] else .ok subregions

def subregionStepId (site : String → List RawRow) (region : RegionRecord) :
    Option Nat → Except Unit (List RegionRecord)
  | none => .ok [region]
  | some id => subregionStepUrl site region (subregions_list_url id)

/-- The loop body of `load_raw_subregions` for one input region. -/
def subregionStep (site : String → List RawRow) (region : RegionRecord) :
    Except Unit (List RegionRecord) :=
  subregionStepId site region region.id

def load_raw_subregions (site : String → List RawRow) (regions : List RegionRecord) :
    Except Unit (List RegionRecord) :=
  (regions.mapM (subregionStep site)).map List.flatten

theorem parse_regions_list_parent {rows : List RawRow} {parent : Option RegionRecord}
    {r : RegionRecord} (h : r ∈ parse_regions_list rows parent) : r.parent = parent := by
  rw [parse_regions_list] at h
  obtain ⟨row, _, hrow⟩ := List.mem_map.mp h
  rw [← hrow]
  rfl

/-- A three-level hierarchy: the root page lists region A (tid 1), A's child
page lists B (tid 2), and B's child page lists C (tid 3). -/
def c2site : String → List RawRow := fun u =>
  if u = ROOT_URL then [("A", some 1, 10)]
  else if u = "https://www.reformagkh.ru/myhouse?tid=1" then [("B", some 2, 5)]
  else if u = "https://www.reformagkh.ru/myhouse?tid=2" then [("C", some 3, 2)]
  else []

/-- Counterexample to C2 as stated: one pass of the builder
(`load_raw_subregions` over `load_raw_regions`) probes exactly one level.  On
a three-level hierarchy it yields region B, whose id is not null and whose own
child-listing probe yields one row — a non-leaf is yielded, and its children
are never probed. -/
theorem load_raw_subregions_yields_non_leaf :
    load_raw_subregions c2site (load_raw_regions c2site) =
      .ok [RegionRecord.mk (some (.mk none "A" (some 1) 10)) "B" (some 2) 5] ∧
    (RegionRecord.mk (some (.mk none "A" (some 1) 10)) "B" (some 2) 5).id = some 2 ∧
    c2site "https://www.reformagkh.ru/myhouse?tid=2" ≠ [] := by
  refine ⟨rfl, rfl, by decide⟩

/-- C2 amended: `load_raw_subregions` performs a single-level probe.  Every
yielded region is either an input region that passed the leaf test (null id,
or a child page parsed to zero rows) or an immediate child of an input region,
carrying that region as its parent; children of a non-leaf input are yielded
unconditionally, without a recursive probe, and every leaf-tested input is
yielded.  Reaching the leaves of a deeper hierarchy requires applying
`load_raw_subregions` once per level. -/
theorem load_raw_subregions_one_level (site : String → List RawRow)
    (rs : List RegionRecord) (out : List RegionRecord)
    (h : load_raw_subregions site rs = .ok out) :
    (∀ r ∈ out,
      (r ∈ rs ∧ (r.id = none ∨ ∃ id url, r.id = some id ∧
        subregions_list_url id = some url ∧ parse_regions_list (site url) (some r) = [])) ∨
      (∃ p id url, p ∈ rs ∧ p.id = some id ∧ subregions_list_url id = some url ∧
        r ∈ parse_regions_list (site url) (some p) ∧ r.parent = some p)) ∧
    (∀ p ∈ rs, ∀ id url, p.id = some id → subregions_list_url id = some url →
      parse_regions_list (site url) (some p) ≠ [] →
      ∀ r ∈ parse_regions_list (site url) (some p), r ∈ out) ∧
    (∀ p ∈ rs, (p.id = none ∨ ∃ id url, p.id = some id ∧
      subregions_list_url id = some url ∧ parse_regions_list (site url) (some p) = []) →
      p ∈ out) := by
  induction rs generalizing out with
  | nil =>
    rw [load_raw_subregions] at h
    simp only [List.mapM_nil, pure, Except.pure, Except.map] at h
    cases h
    refine ⟨fun r hr => absurd hr (by simp), fun p hp => absurd hp (by simp),
      fun p hp => absurd hp (by simp)⟩
  | cons p rest ih =>
    rw [load_raw_subregions, List.mapM_cons] at h
    cases hstep : subregionStep site p with
    | error e => rw [hstep] at h; simp [Bind.bind, Except.bind, Except.map] at h
    | ok g =>
      rw [hstep] at h
      cases hrest : rest.mapM (subregionStep site) with
      | error e => rw [hrest] at h; simp [Bind.bind, Except.bind, Except.map] at h
      | ok gs =>
        rw [hrest] at h
        simp only [Bind.bind, Except.bind, pure, Except.pure, Except.map] at h
        cases h
        have hrec : load_raw_subregions site rest = .ok gs.flatten := by
          rw [load_raw_subregions, hrest]
          rfl
        obtain ⟨iha, ihb, ihc⟩ := ih gs.flatten hrec
        have hg : (p.id = none ∧ g = [p]) ∨
            (∃ id url, p.id = some id ∧ subregions_list_url id = some url ∧
              ((parse_regions_list (site url) (some p) = [] ∧ g = [p]) ∨
               (parse_regions_list (site url) (some p) ≠ [] ∧
                g = parse_regions_list (site url) (some p)))) := by
          cases hid : p.id with
          | none =>
            have hs : subregionStep site p = .ok [p] := by
              unfold subregionStep
              rw [hid]
              rfl
            rw [hs] at hstep
            cases hstep
            exact Or.inl ⟨rfl, rfl⟩
          | some id =>
            have hs0 : subregionStep site p =
                subregionStepUrl site p (subregions_list_url id) := by
              unfold subregionStep
              rw [hid]
              rfl
            cases hurl : subregions_list_url id with
            | none =>
              rw [hs0, hurl] at hstep
              cases hstep
            | some url =>
              rw [hs0, hurl] at hstep
              refine Or.inr ⟨id, url, rfl, hurl, ?_⟩
              by_cases hemp : (parse_regions_list (site url) (some p)).isEmpty
              · have hs : subregionStepUrl site p (some url) = .ok [p] := by
                  unfold subregionStepUrl
                  simp [hemp]
                rw [hs] at hstep
                cases hstep
                exact Or.inl ⟨List.isEmpty_iff.mp hemp, rfl⟩
              · have hs : subregionStepUrl site p (some url) =
                    .ok (parse_regions_list (site url) (some p)) := by
                  unfold subregionStepUrl
                  simp [hemp]
                rw [hs] at hstep
                cases hstep
                exact Or.inr ⟨fun hc => hemp (by rw [hc]; rfl), rfl⟩
        refine ⟨?_, ?_, ?_⟩
        · intro r hr
          rcases List.mem_append.mp hr with hr | hr
          · rcases hg with ⟨hid, hgp⟩ | ⟨id, url, hid, hurl, hcase⟩
            · rw [hgp] at hr
              rcases List.mem_singleton.mp hr with rfl
              exact Or.inl ⟨List.mem_cons_self _ _, Or.inl hid⟩
            · rcases hcase with ⟨hempty, hgp⟩ | ⟨hne, hgp⟩
              · rw [hgp] at hr
                rcases List.mem_singleton.mp hr with rfl
                exact Or.inl ⟨List.mem_cons_self _ _, Or.inr ⟨id, url, hid, hurl, hempty⟩⟩
              · rw [hgp] at hr
                exact Or.inr ⟨p, id, url, List.mem_cons_self _ _, hid, hurl, hr,
                  parse_regions_list_parent hr⟩
          · rcases iha r hr with ⟨hmem, hrest2⟩ | ⟨q, id, url, hq, hrest2⟩
            · exact Or.inl ⟨List.mem_cons_of_mem _ hmem, hrest2⟩
            · exact Or.inr ⟨q, id, url, List.mem_cons_of_mem _ hq, hrest2⟩
        · intro q hq id url hqid hqurl hne r hr
          rcases List.mem_cons.mp hq with rfl | hq
          · rcases hg with ⟨hid, _⟩ | ⟨id2, url2, hid2, hurl2, hcase⟩
            · rw [hqid] at hid; cases hid
            · rw [hqid] at hid2
              cases hid2
              rw [hqurl] at hurl2
              cases hurl2
              rcases hcase with ⟨hempty, _⟩ | ⟨_, hgp⟩
              · exact absurd hempty hne
              · rw [← hgp] at hr
                exact List.mem_append_left _ hr
          · exact List.mem_append_right _ (ihb q hq id url hqid hqurl hne r hr)
        · intro q hq hleaf
          rcases List.mem_cons.mp hq with rfl | hq
          · rcases hg with ⟨_, hgp⟩ | ⟨id2, url2, hid2, hurl2, hcase⟩
            · rw [hgp]
              exact List.mem_append_left _ (List.mem_singleton.mpr rfl)
            · rcases hleaf with hid | ⟨id, url, hid, hurl, hempty⟩
              · rw [hid] at hid2; cases hid2
              · rw [hid] at hid2
                cases hid2
                rw [hurl] at hurl2
                cases hurl2
                rcases hcase with ⟨_, hgp⟩ | ⟨hne, _⟩
                · rw [hgp]
                  exact List.mem_append_left _ (List.mem_singleton.mpr rfl)
                · exact absurd hempty hne
          · exact List.mem_append_right _ (ihc q hq hleaf)

/-- Witness for the amended C2 on the concrete three-level hierarchy. -/
theorem load_raw_subregions_one_level_witness :
    (∀ r ∈ [RegionRecord.mk (some (.mk none "A" (some 1) 10)) "B" (some 2) 5],
      (r ∈ load_raw_regions c2site ∧ (r.id = none ∨ ∃ id url, r.id = some id ∧
        subregions_list_url id = some url ∧ parse_regions_list (c2site url) (some r) = [])) ∨
      (∃ p id url, p ∈ load_raw_regions c2site ∧ p.id = some id ∧
        subregions_list_url id = some url ∧
        r ∈ parse_regions_list (c2site url) (some p) ∧ r.parent = some p)) ∧
    (∀ p ∈ load_raw_regions c2site, ∀ id url, p.id = some id →
      subregions_list_url id = some url →
      parse_regions_list (c2site url) (some p) ≠ [] →
      ∀ r ∈ parse_regions_list (c2site url) (some p),
        r ∈ [RegionRecord.mk (some (.mk none "A" (some 1) 10)) "B" (some 2) 5]) ∧
    (∀ p ∈ load_raw_regions c2site, (p.id = none ∨ ∃ id url, p.id = some id ∧
      subregions_list_url id = some url ∧ parse_regions_list (c2site url) (some p) = []) →
      p ∈ [RegionRecord.mk (some (.mk none "A" (some 1) 10)) "B" (some 2) 5]) :=
  load_raw_subregions_one_level c2site (load_raw_regions c2site)
    [RegionRecord.mk (some (.mk none "A" (some 1) 10)) "B" (some 2) 5] rfl

/-! ### Region persistence (src/main.py lines 317-350)

The parent table is a Python dict keyed by region id; `dump_regions` builds
it by repeated assignment, modelled as the ordered write list with
last-write-wins lookup.  `load_parent_region` recurses through the table;
the recursion is modelled with explicit fuel, `none` standing for a raised
`KeyError` or unbounded recursion. -/

abbrev RegEntry : Type := Option Nat × String × Int

/-- The writes `parents[id] = (parent.id if parent else None, name, buildings)`
performed by the `while parent:` loop of `dump_regions`, innermost leaf parent
first. -/
def chainWrites : RegionRecord → List (Option Nat × RegEntry)
  | .mk parent name id b =>
    (id, (parentIdOf parent, name, b)) ::
      match parent with
      | none => []
      | some p => chainWrites p

/-- One iteration of the `dump_regions` loop: the leaf tuple
`(parent.id, name, id, buildings)` plus the parent-table writes.  Reading
`parent.id` of a `None` parent raises, modelled by `.error`. -/
def dumpRegionLeaf : RegionRecord →
    Except Unit ((Option Nat × String × Option Nat × Int) × List (Option Nat × RegEntry))
  | .mk none _ _ _ => .error ()
  | .mk (some p) name id b => .ok ((p.id, name, id, b), chainWrites p)

def dump_regions (regions : List RegionRecord) :
    Except Unit (List (Option Nat × RegEntry) × List (Option Nat × String × Option Nat × Int)) :=
  (regions.mapM dumpRegionLeaf).map fun l => ((l.map (·.2)).flatten, l.map (·.1))

def load_parent_region (parents : List (Nat × RegEntry)) :
    Nat → Nat → Option RegionRecord
  | 0, _ => none
  | fuel + 1, id =>
    (dlookup parents id).bind fun e =>
      match e with
      | (none, name, b) => some (.mk none name (some id) b)
      | (some pid, name, b) =>
        (load_parent_region parents fuel pid).map fun par => .mk (some par) name (some id) b

def load_regions (parents : List (Nat × RegEntry))
    (leafs : List (Nat × String × Option Nat × Int)) (fuel : Nat) :
    Option (List RegionRecord) :=
  leafs.mapM fun lf =>
    (load_parent_region parents fuel lf.1).map fun par =>
      .mk (some par) lf.2.1 lf.2.2.1 lf.2.2.2

/-- The ids visited by `load_parent_region` along the table's parent chain. -/
def chainIds (parents : List (Nat × RegEntry)) : Nat → Nat → List Nat
  | 0, _ => []
  | fuel + 1, id =>
    ((dlookup parents id).map fun e =>
      id ::
        match e with
        | (none, _, _) => []
        | (some pid, _, _) => chainIds parents fuel pid).getD []

/-- C10: `dump_regions` requires every leaf to carry a non-null parent.  The
builder can yield a root-level leaf with `parent = None` — here a root page
row with no href gives a pseudo-region with null id, which
`load_raw_subregions` passes through as a leaf — and on that output
`dump_regions` raises (reading `parent.id` of `None`) instead of persisting
the region. -/
theorem load_parent_region_id {parents : List (Nat × RegEntry)} :
    ∀ {f k : Nat} {r : RegionRecord},
      load_parent_region parents f k = some r → r.id = some k := by
  intro f
  induction f with
  | zero => intro k r h; simp [load_parent_region] at h
  | succ f ih =>
    intro k r h
    simp only [load_parent_region] at h
    cases hlook : dlookup parents k with
    | none => rw [hlook] at h; simp at h
    | some e =>
      rw [hlook] at h
      obtain ⟨pid?, name, b⟩ := e
      cases pid? with
      | none =>
        simp only [Option.some_bind] at h
        cases h
        rfl
      | some pid =>
        simp only [Option.some_bind] at h
        cases hrec : load_parent_region parents f pid with
        | none => rw [hrec] at h; simp at h
        | some par =>
          rw [hrec] at h
          simp only [Option.map_some'] at h
          cases h
          rfl

theorem chainWrites_sound {parents : List (Nat × RegEntry)} :
    ∀ {f k : Nat} {r : RegionRecord},
      load_parent_region parents f k = some r →
      ∀ w ∈ chainWrites r, ∃ j e, w = (some j, e) ∧ dlookup parents j = some e := by
  intro f
  induction f with
  | zero => intro k r h; simp [load_parent_region] at h
  | succ f ih =>
    intro k r h w hw
    simp only [load_parent_region] at h
    cases hlook : dlookup parents k with
    | none => rw [hlook] at h; simp at h
    | some e =>
      rw [hlook] at h
      obtain ⟨pid?, name, b⟩ := e
      cases pid? with
      | none =>
        simp only [Option.some_bind] at h
        cases h
        simp only [chainWrites, parentIdOf] at hw
        rcases List.mem_singleton.mp hw with rfl
        exact ⟨k, (none, name, b), rfl, hlook⟩
      | some pid =>
        simp only [Option.some_bind] at h
        cases hrec : load_parent_region parents f pid with
        | none => rw [hrec] at h; simp at h
        | some par =>
          rw [hrec] at h
          simp only [Option.map_some'] at h
          cases h
          simp only [chainWrites] at hw
          rcases List.mem_cons.mp hw with rfl | hw
          · refine ⟨k, (some pid, name, b), ?_, hlook⟩
            have hpid : parentIdOf (some par) = some pid := by
              rw [parentIdOf, load_parent_region_id hrec]
            rw [hpid]
          · exact ih hrec w hw

theorem chainWrites_complete {parents : List (Nat × RegEntry)} :
    ∀ {f k : Nat} {r : RegionRecord},
      load_parent_region parents f k = some r →
      ∀ j ∈ chainIds parents f k,
        ∃ e, dlookup parents j = some e ∧ (some j, e) ∈ chainWrites r := by
  intro f
  induction f with
  | zero => intro k r h j hj; simp [chainIds] at hj
  | succ f ih =>
    intro k r h j hj
    simp only [load_parent_region] at h
    simp only [chainIds] at hj
    cases hlook : dlookup parents k with
    | none => rw [hlook] at hj; simp at hj
    | some e =>
      rw [hlook] at h hj
      obtain ⟨pid?, name, b⟩ := e
      simp only [Option.map_some', Option.getD_some] at hj
      cases pid? with
      | none =>
        simp only [Option.some_bind] at h
        cases h
        simp only [List.mem_singleton] at hj
        subst hj
        refine ⟨(none, name, b), hlook, ?_⟩
        simp [chainWrites, parentIdOf]
      | some pid =>
        simp only [Option.some_bind] at h
        cases hrec : load_parent_region parents f pid with
        | none => rw [hrec] at h; simp at h
        | some par =>
          rw [hrec] at h
          simp only [Option.map_some'] at h
          cases h
          have hpid : parentIdOf (some par) = some pid := by
            rw [parentIdOf, load_parent_region_id hrec]
          rcases List.mem_cons.mp hj with rfl | hj
          · refine ⟨(some pid, name, b), hlook, ?_⟩
            simp only [chainWrites, hpid]
            exact List.mem_cons_self _ _
          · obtain ⟨e2, he2, hmem⟩ := ih hrec j hj
            refine ⟨e2, he2, ?_⟩
            simp only [chainWrites]
            exact List.mem_cons_of_mem _ hmem

theorem load_regions_dump_entries {parents : List (Nat × RegEntry)} {fuel : Nat} :
    ∀ {leafs : List (Nat × String × Option Nat × Int)} {rs : List RegionRecord},
      load_regions parents leafs fuel = some rs →
      ∃ l, rs.mapM dumpRegionLeaf = .ok l ∧
        l.map (·.1) = leafs.map (fun lf => ((some lf.1 : Option Nat),
          lf.2.1, lf.2.2.1, lf.2.2.2)) ∧
        (∀ w ∈ (l.map (·.2)).flatten,
          ∃ j e, w = (some j, e) ∧ dlookup parents j = some e) ∧
        (∀ lf ∈ leafs, ∀ j ∈ chainIds parents fuel lf.1,
          ∃ e, dlookup parents j = some e ∧ (some j, e) ∈ (l.map (·.2)).flatten) := by
  intro leafs
  induction leafs with
  | nil =>
    intro rs h
    rw [load_regions, List.mapM_nil] at h
    cases h
    exact ⟨[], rfl, rfl, by simp, by simp⟩
  | cons lf rest ih =>
    intro rs h
    rw [load_regions, List.mapM_cons] at h
    cases hpar : load_parent_region parents fuel lf.1 with
    | none => rw [hpar] at h; simp at h
    | some par =>
      rw [hpar] at h
      simp only [Option.map_some', Option.some_bind] at h
      cases hrest : rest.mapM (fun lf =>
          (load_parent_region parents fuel lf.1).map fun par =>
            RegionRecord.mk (some par) lf.2.1 lf.2.2.1 lf.2.2.2) with
      | none => rw [hrest] at h; simp at h
      | some rs2 =>
        rw [hrest] at h
        simp only [Option.some_bind, Option.bind_eq_bind] at h
        cases h
        obtain ⟨l2, hmap2, hfst2, hsound2, hcomp2⟩ := ih hrest
        have hid : par.id = some lf.1 := load_parent_region_id hpar
        have hdump : dumpRegionLeaf
            (RegionRecord.mk (some par) lf.2.1 lf.2.2.1 lf.2.2.2) =
            .ok (((some lf.1 : Option Nat), lf.2.1, lf.2.2.1, lf.2.2.2),
              chainWrites par) := by
          rw [dumpRegionLeaf, hid]
        refine ⟨(((some lf.1 : Option Nat), lf.2.1, lf.2.2.1, lf.2.2.2),
          chainWrites par) :: l2, ?_, ?_, ?_, ?_⟩
        · rw [List.mapM_cons, hdump, hmap2]
          rfl
        · simp only [List.map_cons, hfst2]
        · intro w hw
          simp only [List.map_cons, List.flatten_cons] at hw
          rcases List.mem_append.mp hw with hw | hw
          · exact chainWrites_sound hpar w hw
          · exact hsound2 w hw
        · intro lf2 hlf2 j hj
          simp only [List.map_cons, List.flatten_cons]
          rcases List.mem_cons.mp hlf2 with rfl | hlf2
          · obtain ⟨e, he, hmem⟩ := chainWrites_complete hpar j hj
            exact ⟨e, he, List.mem_append_left _ hmem⟩
          · obtain ⟨e, he, hmem⟩ := hcomp2 lf2 hlf2 j hj
            exact ⟨e, he, List.mem_append_right _ hmem⟩

/-- C4: round trip of the region store.  For a persisted
`(parent-table, leaf-list)` pair that loads successfully and whose parent
table only holds ids reachable from some leaf's ancestor chain (the shape
`dump_regions` itself produces), re-saving the loaded regions yields the same
leaf-list of `(parent_id, name, id, building_count)` tuples and a parent
table with exactly the same key-value lookups, independent of object identity
of the freshly allocated ancestor chains. -/
theorem dump_regions_roundtrips_store (parents : List (Nat × RegEntry))
    (leafs : List (Nat × String × Option Nat × Int)) (fuel : Nat)
    (rs : List RegionRecord)
    (hload : load_regions parents leafs fuel = some rs)
    (hreach : ∀ k e, dlookup parents k = some e →
      ∃ lf ∈ leafs, k ∈ chainIds parents fuel lf.1) :
    ∃ writes, dump_regions rs = .ok (writes,
        leafs.map (fun lf => ((some lf.1 : Option Nat), lf.2.1, lf.2.2.1, lf.2.2.2))) ∧
      (∀ k : Nat, dlookup writes (some k) = dlookup parents k) ∧
      dlookup writes none = none := by
  obtain ⟨l, hmap, hfst, hsound, hcomp⟩ := load_regions_dump_entries hload
  refine ⟨(l.map (·.2)).flatten, ?_, ?_, ?_⟩
  · rw [dump_regions, hmap, Except.map, hfst]
  · intro k
    cases hW : dlookup ((l.map (·.2)).flatten) (some k) with
    | some v =>
      obtain ⟨j, e, hw, he⟩ := hsound _ (dlookup_mem hW)
      cases hw
      exact he.symm
    | none =>
      cases hP : dlookup parents k with
      | none => rfl
      | some e =>
        obtain ⟨lf, hlf, hmem⟩ := hreach k e hP
        obtain ⟨e2, _, hmem2⟩ := hcomp lf hlf k hmem
        exact absurd hmem2 (dlookup_eq_none hW e2)
  · cases hW : dlookup ((l.map (·.2)).flatten) none with
    | none => rfl
    | some v =>
      obtain ⟨j, e, hw, _⟩ := hsound _ (dlookup_mem hW)
      cases hw

/-- Witness for C4 at a concrete one-leaf store: parent table
`1 ↦ (None, "P", 100)`, leaf `(1, "L", 2, 10)`, fuel 1. -/
theorem dump_regions_roundtrips_store_witness :
    (load_regions [(1, (none, "P", 100))] [(1, ("L", some 2, 10))] 1 =
      some [RegionRecord.mk (some (.mk none "P" (some 1) 100)) "L" (some 2) 10]) ∧
    (∃ writes, dump_regions
        [RegionRecord.mk (some (.mk none "P" (some 1) 100)) "L" (some 2) 10] =
        .ok (writes, [(1, ("L", some 2, 10))].map
          (fun lf => ((some lf.1 : Option Nat), lf.2.1, lf.2.2.1, lf.2.2.2))) ∧
      (∀ k : Nat, dlookup writes (some k) = dlookup [(1, (none, "P", 100))] k) ∧
      dlookup writes none = none) := by
  refine ⟨rfl, ?_⟩
  refine dump_regions_roundtrips_store [(1, (none, "P", 100))] [(1, ("L", some 2, 10))] 1
    [RegionRecord.mk (some (.mk none "P" (some 1) 100)) "L" (some 2) 10] rfl ?_
  intro k e h
  have hm := dlookup_mem h
  rcases List.mem_singleton.mp hm with hm2
  have hk : k = 1 := congrArg Prod.fst hm2
  subst hk
  exact ⟨(1, ("L", some 2, 10)), List.mem_singleton.mpr rfl, by decide⟩

theorem dump_regions_crashes_on_rootless_leaf :
    load_raw_subregions (fun u => if u = ROOT_URL then [("X", none, 7)] else [])
        (load_raw_regions (fun u => if u = ROOT_URL then [("X", none, 7)] else [])) =
      .ok [RegionRecord.mk none "X" none 7] ∧
    (RegionRecord.mk none "X" none 7).parent = none ∧
    dump_regions [RegionRecord.mk none "X" none 7] = .error () := by
  exact ⟨rfl, rfl, rfl⟩

/-! ### Profile parser, classification group (src/main.py lines 512-543)

`parse_building_profile_data` iterates regex matches over the profile HTML;
the regex extraction is abstracted to the list of extracted
`(key span text, value span text)` pairs, and the loop body — strip the
value, map the "Не заполнено" sentinel to None, assign into the dict — is
modelled on those pairs.  Python values are dynamically typed: the
`repair` field ends up None, a bool, or the original string, captured by
`PyVal`. -/

inductive PyVal : Type where
  | none
  | str (s : String)
  | bool (b : Bool)
  deriving DecidableEq

def pyStrip (s : String) : String := ⟨pyStripChars s.data⟩

def parse_building_profile_data (pairs : List (String × String)) :
    List (String × Option String) :=
  pairs.map fun p =>
    (p.1, if pyStrip p.2 = "Не заполнено" then none else some (pyStrip p.2))

/-- Python `dict.get`: `none` both for an absent key and for a stored
`None` value. -/
def pyGet (data : List (String × Option String)) (k : String) : Option String :=
  (dlookup data k).join

structure BuildingType where
  building : Option String
  series : Option String
  capital : Option String
  repair : PyVal
  energy : Option String
  deriving DecidableEq

def parse_building_profile_types (data : List (String × Option String)) : BuildingType :=
  let type := pyGet data "Тип дома"
  let series := pyGet data "Серия, тип постройки здания"
  let capital := pyGet data "Способ формирования фонда капитального ремонта"
  let repair0 := pyGet data "Дом признан аварийным"
  let repair : PyVal :=
    if repair0 = some "Да" then .bool true
    else if repair0 = some "Нет" then .bool false
    else
      match repair0 with
      | Option.none => .none
      | some s => .str s
  let energy0 := pyGet data "Класс энергетической эффективности"
  let energy := if energy0 = some "Не присвоен" then none else energy0
  ⟨type, series, capital, repair, energy⟩

theorem dlookup_map_value {κ ν ν2 : Type} [DecidableEq κ] (f : ν → ν2)
    (l : List (κ × ν)) (k : κ) :
    dlookup (l.map fun p => (p.1, f p.2)) k = (dlookup l k).map f := by
  induction l with
  | nil => rfl
  | cons p rest ih =>
    simp only [List.map_cons, dlookup_cons, ih]
    cases h : dlookup rest k with
    | some v => simp
    | none =>
      by_cases hk : p.1 = k
      · simp [hk]
      · simp [hk]

/-- Counterexample to C3 as stated: a condemned-label value other than
"Да"/"Нет" (and other than the "Не заполнено" sentinel) is not mapped to
null — the raw text passes through unchanged. -/
theorem parse_profile_condemned_text_passthrough :
    (parse_building_profile_types
      (parse_building_profile_data [("Дом признан аварийным", "Возможно")])).repair =
      PyVal.str "Возможно" ∧ PyVal.str "Возможно" ≠ PyVal.none := by
  exact ⟨rfl, by decide⟩

/-- C3 amended: the condemned (`repair`) field of the classification group is
`true` for value text "Да", `false` for "Нет", null when the label is absent
or its value is the "Не заполнено" sentinel, and for any other value text the
stripped raw string itself — not null. -/
theorem parse_profile_condemned_tri_state (pairs : List (String × String)) :
    (∀ raw, dlookup pairs "Дом признан аварийным" = some raw →
      (parse_building_profile_types (parse_building_profile_data pairs)).repair =
        (if pyStrip raw = "Да" then PyVal.bool true
         else if pyStrip raw = "Нет" then PyVal.bool false
         else if pyStrip raw = "Не заполнено" then PyVal.none
         else PyVal.str (pyStrip raw))) ∧
    (dlookup pairs "Дом признан аварийным" = none →
      (parse_building_profile_types (parse_building_profile_data pairs)).repair =
        PyVal.none) := by
  have hdata : ∀ k, dlookup (parse_building_profile_data pairs) k =
      (dlookup pairs k).map
        (fun v => if pyStrip v = "Не заполнено" then none else some (pyStrip v)) := by
    intro k
    rw [parse_building_profile_data]
    exact dlookup_map_value
      (fun v => if pyStrip v = "Не заполнено" then none else some (pyStrip v)) pairs k
  constructor
  · intro raw hraw
    have hget : pyGet (parse_building_profile_data pairs) "Дом признан аварийным" =
        if pyStrip raw = "Не заполнено" then none else some (pyStrip raw) := by
      rw [pyGet, hdata, hraw]
      cases hs : (if pyStrip raw = "Не заполнено" then none else some (pyStrip raw)) <;>
        simp [hs]
    by_cases h1 : pyStrip raw = "Не заполнено"
    · rw [if_pos h1]
      have hg : pyGet (parse_building_profile_data pairs) "Дом признан аварийным" =
          none := by rw [hget, if_pos h1]
      have hda : pyStrip raw ≠ "Да" := by rw [h1]; decide
      have hnet : pyStrip raw ≠ "Нет" := by rw [h1]; decide
      rw [if_neg hda, if_neg hnet]
      simp [parse_building_profile_types, hg]
    · have hg : pyGet (parse_building_profile_data pairs) "Дом признан аварийным" =
          some (pyStrip raw) := by rw [hget, if_neg h1]
      rw [if_neg h1]
      by_cases h2 : pyStrip raw = "Да"
      · rw [if_pos h2]
        simp [parse_building_profile_types, hg, h2]
      · rw [if_neg h2]
        by_cases h3 : pyStrip raw = "Нет"
        · rw [if_pos h3]
          simp [parse_building_profile_types, hg, h2, h3]
        · rw [if_neg h3]
          simp [parse_building_profile_types, hg, h2, h3]
  · intro hnone
    have hg : pyGet (parse_building_profile_data pairs) "Дом признан аварийным" =
        none := by rw [pyGet, hdata, hnone]; rfl
    simp [parse_building_profile_types, hg]

/-- Witness for the amended C3 at a concrete pair list holding the sentinel
value. -/
theorem parse_profile_condemned_tri_state_witness :
    (∀ raw, dlookup [("Дом признан аварийным", "Да")] "Дом признан аварийным" = some raw →
      (parse_building_profile_types
        (parse_building_profile_data [("Дом признан аварийным", "Да")])).repair =
        (if pyStrip raw = "Да" then PyVal.bool true
         else if pyStrip raw = "Нет" then PyVal.bool false
         else if pyStrip raw = "Не заполнено" then PyVal.none
         else PyVal.str (pyStrip raw))) ∧
    (dlookup [("Дом признан аварийным", "Да")] "Дом признан аварийным" = none →
      (parse_building_profile_types
        (parse_building_profile_data [("Дом признан аварийным", "Да")])).repair =
        PyVal.none) :=
  parse_profile_condemned_tri_state [("Дом признан аварийным", "Да")]

/-! ### Listing records and listing persistence (src/main.py lines 43-46, 403-438)

`dump_region_lists` interns the free-text company field: the enumerate index
becomes the interned id of a company the first time it is seen; `None`
companies store `None`.  `load_region_lists` inverts the interning table,
adds the `None ↦ None` entry, and re-attaches regions by id. -/

structure RegionListRecord where
  region : RegionRecord
  id : Nat
  address : String
  year : Option Int
  area : Option Rat
  company : Option String

abbrev RLRow : Type := Option Nat × Nat × String × Option Int × Option Rat × Option Nat

def dumpRLCompanyLook (c : String) (i : Nat) (cs : List (String × Nat)) :
    Option Nat → Option Nat × List (String × Nat)
  | some j => (some j, cs)
  | none => (some i, cs ++ [(c, i)])

def dumpRLCompany : Option String → Nat → List (String × Nat) →
    Option Nat × List (String × Nat)
  | none, _, cs => (none, cs)
  | some c, i, cs => dumpRLCompanyLook c i cs (dlookup cs c)

def dumpRLAux : List RegionListRecord → Nat → List (String × Nat) →
    List (String × Nat) × List RLRow
  | [], _, cs => (cs, [])
  | r :: rest, i, cs =>
    let pr := dumpRLCompany r.company i cs
    let rec2 := dumpRLAux rest (i + 1) pr.2
    (rec2.1, (r.region.id, r.id, r.address, r.year, r.area, pr.1) :: rec2.2)

def dump_region_lists (results : List RegionListRecord) :
    List (String × Nat) × List RLRow :=
  dumpRLAux results 0 []

/-- Python `{_.id: _ for _ in regions}`. -/
def regionsById (regions : List RegionRecord) : List (Option Nat × RegionRecord) :=
  regions.map fun r => (r.id, r)

/-- Python `companies = {id: name for name, id in companies.iteritems()};
companies[None] = None`. -/
def invertCompanies (companies : List (String × Nat)) :
    List (Option Nat × Option String) :=
  (companies.map fun p => ((some p.2 : Option Nat), (some p.1 : Option String))) ++
    [(none, none)]

def loadRLRow2 (region : RegionRecord) (row : RLRow) :
    Option (Option String) → Except Unit RegionListRecord
  | none => .error ()
  | some comp => .ok ⟨region, row.2.1, row.2.2.1, row.2.2.2.1, row.2.2.2.2.1, comp⟩

def loadRLRow1 (companies : List (String × Nat)) (row : RLRow) :
    Option RegionRecord → Except Unit RegionListRecord
  | none => .error ()
  | some region =>
    loadRLRow2 region row (dlookup (invertCompanies companies) row.2.2.2.2.2)

def loadRLRow (regions : List RegionRecord) (companies : List (String × Nat))
    (row : RLRow) : Except Unit RegionListRecord :=
  loadRLRow1 companies row (dlookup (regionsById regions) row.1)

def load_region_lists (regions : List RegionRecord)
    (store : List (String × Nat) × List RLRow) : Except Unit (List RegionListRecord) :=
  store.2.mapM (loadRLRow regions store.1)

def csBound (cs : List (String × Nat)) (i : Nat) : Prop := ∀ p ∈ cs, p.2 < i

def csValInj (cs : List (String × Nat)) : Prop :=
  ∀ p q, p ∈ cs → q ∈ cs → p.2 = q.2 → p = q

theorem dumpRLAux_persist :
    ∀ (records : List RegionListRecord) (i : Nat) (cs : List (String × Nat)) (c : String)
      (j : Nat), dlookup cs c = some j → dlookup (dumpRLAux records i cs).1 c = some j := by
  intro records
  induction records with
  | nil => intro i cs c j h; simpa [dumpRLAux] using h
  | cons r rest ih =>
    intro i cs c j h
    obtain ⟨reg, idv, addr, y, a, comp⟩ := r
    cases comp with
    | none =>
      simp only [dumpRLAux, dumpRLCompany]
      exact ih _ _ _ _ h
    | some c2 =>
      cases hl : dlookup cs c2 with
      | some j2 =>
        simp only [dumpRLAux, dumpRLCompany, hl, dumpRLCompanyLook]
        exact ih _ _ _ _ h
      | none =>
        simp only [dumpRLAux, dumpRLCompany, hl, dumpRLCompanyLook]
        apply ih
        have hne : c2 ≠ c := by
          rintro rfl
          rw [hl] at h
          cases h
        rw [dlookup_append]
        have hsing : dlookup [(c2, i)] c = none := by
          simp [dlookup, hne]
        rw [hsing, h]

theorem dumpRLAux_valinj :
    ∀ (records : List RegionListRecord) (i : Nat) (cs : List (String × Nat)),
      csBound cs i → csValInj cs → csValInj (dumpRLAux records i cs).1 := by
  intro records
  induction records with
  | nil => intro i cs _ hinj; simpa [dumpRLAux] using hinj
  | cons r rest ih =>
    intro i cs hb hinj
    obtain ⟨reg, idv, addr, y, a, comp⟩ := r
    have hb1 : csBound cs (i + 1) := fun p hp => Nat.lt_succ_of_lt (hb p hp)
    cases comp with
    | none =>
      simp only [dumpRLAux, dumpRLCompany]
      exact ih _ _ hb1 hinj
    | some c2 =>
      cases hl : dlookup cs c2 with
      | some j2 =>
        simp only [dumpRLAux, dumpRLCompany, hl, dumpRLCompanyLook]
        exact ih _ _ hb1 hinj
      | none =>
        simp only [dumpRLAux, dumpRLCompany, hl, dumpRLCompanyLook]
        apply ih
        · intro p hp
          rcases List.mem_append.mp hp with hp | hp
          · exact Nat.lt_succ_of_lt (hb p hp)
          · rcases List.mem_singleton.mp hp with rfl
            exact Nat.lt_succ_self _
        · intro p q hp hq hval
          rcases List.mem_append.mp hp with hp | hp <;>
            rcases List.mem_append.mp hq with hq | hq
          · exact hinj p q hp hq hval
          · rcases List.mem_singleton.mp hq with rfl
            exact absurd hval (Nat.ne_of_lt (hb p hp))
          · rcases List.mem_singleton.mp hp with rfl
            exact absurd hval.symm (Nat.ne_of_lt (hb q hq))
          · rcases List.mem_singleton.mp hp with rfl
            rcases List.mem_singleton.mp hq with rfl
            rfl

theorem dlookup_invert_none (cs : List (String × Nat)) :
    dlookup (invertCompanies cs) none = some none := by
  rw [invertCompanies, dlookup_append]
  rfl

theorem dlookup_invert_mem {cs : List (String × Nat)} {c : String} {j : Nat}
    (hinj : csValInj cs) (hmem : (c, j) ∈ cs) :
    dlookup (invertCompanies cs) (some j) = some (some c) := by
  rw [invertCompanies, dlookup_append]
  have hsing : dlookup [((none : Option Nat), (none : Option String))] (some j) = none := by
    simp [dlookup]
  rw [hsing]
  induction cs with
  | nil => cases hmem
  | cons p rest ih =>
    simp only [List.map_cons, dlookup_cons]
    cases hr : dlookup (rest.map fun p => ((some p.2 : Option Nat),
        (some p.1 : Option String))) (some j) with
    | some w =>
      obtain ⟨q, hq, hqe⟩ := List.mem_map.mp (dlookup_mem hr)
      have hj : q.2 = j := by
        have := congrArg Prod.fst hqe
        simpa using this
      have hw : w = some q.1 := by
        have := congrArg Prod.snd hqe
        simpa using this.symm
      have hqc : q = (c, j) := by
        apply hinj q (c, j) (List.mem_cons_of_mem _ hq) hmem
        simpa using hj
      rw [hw, hqc]
    | none =>
      rcases List.mem_cons.mp hmem with rfl | hmem2
      · simp
      · have hsome := @dlookup_isSome_of_mem (Option Nat) (Option String) _
          (rest.map fun p => ((some p.2 : Option Nat), (some p.1 : Option String)))
          (some j) (some c) (List.mem_map.mpr ⟨(c, j), hmem2, rfl⟩)
        rw [hr] at hsome
        cases hsome

theorem dumpRLAux_load (regions : List RegionRecord) :
    ∀ (records : List RegionListRecord) (i : Nat) (cs csF : List (String × Nat))
      (rows : List RLRow),
      dumpRLAux records i cs = (csF, rows) →
      csBound cs i →
      csValInj csF →
      (∀ rec ∈ records, dlookup (regionsById regions) rec.region.id = some rec.region) →
      rows.mapM (loadRLRow regions csF) = .ok records := by
  intro records
  induction records with
  | nil =>
    intro i cs csF rows hdump _ _ _
    simp only [dumpRLAux, Prod.mk.injEq] at hdump
    rw [← hdump.2, List.mapM_nil]
    rfl
  | cons r rest ih =>
    intro i cs csF rows hdump hb hinj hreg
    obtain ⟨reg, idv, addr, y, a, comp⟩ := r
    have hreghead := hreg _ (List.mem_cons_self _ _)
    have hregrest : ∀ rec ∈ rest,
        dlookup (regionsById regions) rec.region.id = some rec.region :=
      fun rec hrec => hreg rec (List.mem_cons_of_mem _ hrec)
    have hb1 : csBound cs (i + 1) := fun p hp => Nat.lt_succ_of_lt (hb p hp)
    cases comp with
    | none =>
      simp only [dumpRLAux, dumpRLCompany] at hdump
      cases hrec : dumpRLAux rest (i + 1) cs with
      | mk csF2 rows2 =>
        rw [hrec] at hdump
        simp only [Prod.mk.injEq] at hdump
        obtain ⟨h1, h2⟩ := hdump
        rw [h1] at hrec
        rw [← h2]
        have hhead : loadRLRow regions csF
            ((RegionRecord.id reg), idv, addr, y, a, (none : Option Nat)) =
            .ok ⟨reg, idv, addr, y, a, none⟩ := by
          rw [loadRLRow]
          have : dlookup (regionsById regions) (RegionRecord.id reg) = some reg := hreghead
          rw [this]
          simp only [loadRLRow1]
          rw [dlookup_invert_none]
          rfl
        rw [List.mapM_cons, hhead, ih (i + 1) cs csF rows2 hrec hb1 hinj hregrest]
        rfl
    | some c2 =>
      cases hl : dlookup cs c2 with
      | some j =>
        simp only [dumpRLAux, dumpRLCompany, hl, dumpRLCompanyLook] at hdump
        cases hrec : dumpRLAux rest (i + 1) cs with
        | mk csF2 rows2 =>
          rw [hrec] at hdump
          simp only [Prod.mk.injEq] at hdump
          obtain ⟨h1, h2⟩ := hdump
          rw [h1] at hrec
          rw [← h2]
          have hjF : dlookup csF c2 = some j := by
            have := dumpRLAux_persist rest (i + 1) cs c2 j hl
            rw [hrec] at this
            exact this
          have hhead : loadRLRow regions csF
              ((RegionRecord.id reg), idv, addr, y, a, (some j : Option Nat)) =
              .ok ⟨reg, idv, addr, y, a, some c2⟩ := by
            rw [loadRLRow]
            rw [(hreghead : dlookup (regionsById regions) (RegionRecord.id reg) = some reg)]
            simp only [loadRLRow1]
            rw [show dlookup (invertCompanies csF) (some j) = some (some c2) from
              dlookup_invert_mem hinj (dlookup_mem hjF)]
            rfl
          rw [List.mapM_cons, hhead, ih (i + 1) cs csF rows2 hrec hb1 hinj hregrest]
          rfl
      | none =>
        simp only [dumpRLAux, dumpRLCompany, hl, dumpRLCompanyLook] at hdump
        cases hrec : dumpRLAux rest (i + 1) (cs ++ [(c2, i)]) with
        | mk csF2 rows2 =>
          rw [hrec] at hdump
          simp only [Prod.mk.injEq] at hdump
          obtain ⟨h1, h2⟩ := hdump
          rw [h1] at hrec
          rw [← h2]
          have hlook2 : dlookup (cs ++ [(c2, i)]) c2 = some i := by
            rw [dlookup_append]
            have : dlookup [(c2, i)] c2 = some i := by simp [dlookup]
            rw [this]
          have hiF : dlookup csF c2 = some i := by
            have := dumpRLAux_persist rest (i + 1) (cs ++ [(c2, i)]) c2 i hlook2
            rw [hrec] at this
            exact this
          have hbext : csBound (cs ++ [(c2, i)]) (i + 1) := by
            intro p hp
            rcases List.mem_append.mp hp with hp | hp
            · exact Nat.lt_succ_of_lt (hb p hp)
            · rcases List.mem_singleton.mp hp with rfl
              exact Nat.lt_succ_self _
          have hhead : loadRLRow regions csF
              ((RegionRecord.id reg), idv, addr, y, a, (some i : Option Nat)) =
              .ok ⟨reg, idv, addr, y, a, some c2⟩ := by
            rw [loadRLRow]
            rw [(hreghead : dlookup (regionsById regions) (RegionRecord.id reg) = some reg)]
            simp only [loadRLRow1]
            rw [show dlookup (invertCompanies csF) (some i) = some (some c2) from
              dlookup_invert_mem hinj (dlookup_mem hiF)]
            rfl
          rw [List.mapM_cons, hhead,
            ih (i + 1) (cs ++ [(c2, i)]) csF rows2 hrec hbext hinj hregrest]
          rfl

/-- C5: `load(save(listing_records))` reconstructs every record: the original
company text (including `None` companies, stored as the `None` sentinel and
distinct from every interned index, id 0 included) and the original region
object re-attached by id.  The hypothesis states that region-id lookup over
the supplied regions resolves each record's region to that same object
(region ids identify regions among those supplied). -/
theorem load_dump_region_lists_round_trip (regions : List RegionRecord)
    (records : List RegionListRecord)
    (hreg : ∀ rec ∈ records,
      dlookup (regionsById regions) rec.region.id = some rec.region) :
    load_region_lists regions (dump_region_lists records) = .ok records := by
  cases hdump : dumpRLAux records 0 [] with
  | mk csF rows =>
    have hvi : csValInj csF := by
      have h := dumpRLAux_valinj records 0 []
        (fun p hp => absurd hp (List.not_mem_nil p))
        (fun p q hp _ _ => absurd hp (List.not_mem_nil p))
      rw [hdump] at h
      exact h
    have hload := dumpRLAux_load regions records 0 [] csF rows hdump
      (fun p hp => absurd hp (List.not_mem_nil p)) hvi hreg
    have hstore : dump_region_lists records = (csF, rows) := by
      rw [dump_region_lists, hdump]
    rw [hstore]
    exact hload

/-- Witness for C5: two records sharing a region, one with a company
interned at id 0, one with a `None` company. -/
theorem load_dump_region_lists_round_trip_witness :
    (∀ rec ∈ [RegionListRecord.mk (RegionRecord.mk none "A" (some 1) 10) 5 "addr"
        (some 1999) (some (5 : Rat)) (some "ООО Ромашка"),
      RegionListRecord.mk (RegionRecord.mk none "A" (some 1) 10) 6 "addr2"
        none none none],
      dlookup (regionsById [RegionRecord.mk none "A" (some 1) 10]) rec.region.id =
        some rec.region) ∧
    load_region_lists [RegionRecord.mk none "A" (some 1) 10]
      (dump_region_lists [RegionListRecord.mk (RegionRecord.mk none "A" (some 1) 10) 5
          "addr" (some 1999) (some (5 : Rat)) (some "ООО Ромашка"),
        RegionListRecord.mk (RegionRecord.mk none "A" (some 1) 10) 6 "addr2"
          none none none]) =
      .ok [RegionListRecord.mk (RegionRecord.mk none "A" (some 1) 10) 5 "addr"
        (some 1999) (some (5 : Rat)) (some "ООО Ромашка"),
      RegionListRecord.mk (RegionRecord.mk none "A" (some 1) 10) 6 "addr2"
        none none none] := by
  have hreg : ∀ rec ∈ [RegionListRecord.mk (RegionRecord.mk none "A" (some 1) 10) 5 "addr"
      (some 1999) (some (5 : Rat)) (some "ООО Ромашка"),
    RegionListRecord.mk (RegionRecord.mk none "A" (some 1) 10) 6 "addr2"
      none none none],
      dlookup (regionsById [RegionRecord.mk none "A" (some 1) 10]) rec.region.id =
        some rec.region := by
    intro rec hrec
    rcases List.mem_cons.mp hrec with rfl | hrec
    · rfl
    · rcases List.mem_cons.mp hrec with rfl | hrec
      · rfl
      · cases hrec
  exact ⟨hreg, load_dump_region_lists_round_trip _ _ hreg⟩

/-! ### Listing parser (src/main.py lines 353-400)

The soup navigation is abstracted structurally: a listing page has an
optional `div class="grid"`, which has an optional inner table, which is a
list of `tr` rows of `td` cells; a cell may hold a link tag with an optional
href.  `int()` and `float()` are modelled on the decimal forms the site
emits (optional sign, digits, optional fraction part), returning `none`
where Python raises. -/

structure LinkTag where
  href : Option String
  text : String

structure TdCell where
  link : Option LinkTag
  text : String

abbrev TableRow : Type := List TdCell

structure GridDiv where
  table : Option (List TableRow)

structure ListingPage where
  grid : Option GridDiv

def digitsVal (ds : List Char) : Nat :=
  ds.foldl (fun acc c => acc * 10 + (c.toNat - Char.toNat '0')) 0

/-- Python `int(s)` on the decimal forms used by the site: optional
surrounding whitespace, optional sign, digits; `none` where Python raises
`ValueError`. -/
def pyInt (s : String) : Option Int :=
  match pyStripChars s.data with
  | '-' :: ds =>
    if ds ≠ [] ∧ ds.all Char.isDigit then some (-(digitsVal ds : Int)) else none
  | '+' :: ds =>
    if ds ≠ [] ∧ ds.all Char.isDigit then some ((digitsVal ds : Int)) else none
  | ds =>
    if ds ≠ [] ∧ ds.all Char.isDigit then some ((digitsVal ds : Int)) else none

def pyFloatBody (ds : List Char) : Option Rat :=
  let ip := ds.takeWhile Char.isDigit
  match ds.drop ip.length with
  | [] => if ip ≠ [] then some (mkRat (digitsVal ip) 1) else none
  | '.' :: fp =>
    if fp.all Char.isDigit ∧ (ip ≠ [] ∨ fp ≠ []) then
      some (mkRat (digitsVal ip) 1 + mkRat (digitsVal fp) (10 ^ fp.length))
    else none
  | _ => none

/-- Python `float(s)` on the decimal forms used by the site. -/
def pyFloat (s : String) : Option Rat :=
  match pyStripChars s.data with
  | '-' :: ds => (pyFloatBody ds).map (fun q => -q)
  | '+' :: ds => pyFloatBody ds
  | ds => pyFloatBody ds

/-- Python `string.replace(' ', '')`. -/
def stripSpaces (s : String) : String :=
  ⟨s.data.filter (fun c => c ≠ ' ')⟩

def parse_reforma_float (s : String) : Option Rat :=
  pyFloat (stripSpaces s)

def parseProfileHrefChars (cs : List Char) : Option Nat :=
  let pfx := "/myhouse/profile/view/".data
  if cs.take pfx.length = pfx then
    let rest := cs.drop pfx.length
    let ds := rest.takeWhile Char.isDigit
    if ds ≠ [] ∧ (rest.drop ds.length).take 1 = ['/'] then some (digitsVal ds) else none
  else none

/-- The building id from the address link, per the anchored pattern
`/myhouse/profile/view/(digits)/`. -/
def parseProfileHref (s : String) : Option Nat :=
  parseProfileHrefChars s.data

def optToExcept {α : Type} : Option α → Except Unit α
  | none => .error ()
  | some x => .ok x

def parseYearField (t : String) : Except Unit (Option Int) :=
  if t = "н.д." then .ok none else (optToExcept (pyInt t)).map some

def parseAreaField (t : String) : Except Unit (Option Rat) :=
  if t = "н.д." then .ok none else (optToExcept (parse_reforma_float t)).map some

def parseCompanyField (t : String) : Option String :=
  if t = "Не заполнено" then none else some t

def parseListingRow (region : RegionRecord) : TableRow → Except Unit RegionListRecord
  | [address, year, area, company] =>
    (optToExcept address.link).bind fun link =>
    (optToExcept link.href).bind fun href =>
    (optToExcept (parseProfileHref href)).bind fun id =>
    (parseYearField year.text).bind fun y =>
    (parseAreaField area.text).bind fun a =>
    .ok ⟨region, id, link.text, y, a, parseCompanyField company.text⟩
  | _ => .error ()

def pyReprOptNat : Option Nat → String
  | none => "None"
  | some n => toString n

def parse_region_list_table (region : RegionRecord) :
    Option (List TableRow) → Except Unit (List RegionListRecord × List String)
  | none => .error ()
  | some trs => ((trs.drop 1).mapM (parseListingRow region)).map fun recs => (recs, [])

def parse_region_list_grid (region : RegionRecord) :
    Option GridDiv → Except Unit (List RegionListRecord × List String)
  | none => .ok ([], ["Unable to parse region: " ++ pyReprOptNat region.id])
  | some gd => parse_region_list_table region gd.table

/-- `parse_region_list(html, region)`; the second component collects the
stderr diagnostics.  The `region=None` default of the source is not needed:
every caller supplies a region. -/
def parse_region_list (page : ListingPage) (region : RegionRecord) :
    Except Unit (List RegionListRecord × List String) :=
  parse_region_list_grid region page.grid

/-- C6: on a listing page without the `div class="grid"` results table,
`parse_region_list` does not raise: it yields zero records and one stderr
diagnostic naming the region id. -/
theorem parse_region_list_missing_table (page : ListingPage) (region : RegionRecord)
    (h : page.grid = none) :
    parse_region_list page region =
      .ok ([], ["Unable to parse region: " ++ pyReprOptNat region.id]) := by
  rw [parse_region_list, h]
  rfl

/-- Witness for C6 at a concrete grid-less page. -/
theorem parse_region_list_missing_table_witness :
    (ListingPage.mk none).grid = none ∧
    parse_region_list (ListingPage.mk none) (RegionRecord.mk none "A" (some 83) 10) =
      .ok ([], ["Unable to parse region: " ++
        pyReprOptNat (RegionRecord.mk none "A" (some 83) 10).id]) :=
  ⟨rfl, parse_region_list_missing_table (ListingPage.mk none)
    (RegionRecord.mk none "A" (some 83) 10) rfl⟩

theorem parseListingRow_fields (region : RegionRecord)
    (address year area company : TdCell) (rec : RegionListRecord)
    (h : parseListingRow region [address, year, area, company] = .ok rec) :
    (rec.year = none ↔ year.text = "н.д.") ∧
    (year.text ≠ "н.д." → rec.year = pyInt year.text) ∧
    (rec.area = none ↔ area.text = "н.д.") ∧
    (area.text ≠ "н.д." → rec.area = parse_reforma_float area.text) ∧
    (rec.company = none ↔ company.text = "Не заполнено") ∧
    (company.text ≠ "Не заполнено" → rec.company = some company.text) := by
  simp only [parseListingRow] at h
  cases hlink : address.link with
  | none => rw [hlink] at h; simp [optToExcept, Except.bind] at h
  | some link =>
    rw [hlink] at h
    simp only [optToExcept, Except.bind] at h
    cases hhref : link.href with
    | none => rw [hhref] at h; simp [optToExcept, Except.bind] at h
    | some href =>
      rw [hhref] at h
      simp only [optToExcept, Except.bind] at h
      cases hid : parseProfileHref href with
      | none => rw [hid] at h; simp [optToExcept, Except.bind] at h
      | some id =>
        rw [hid] at h
        simp only [optToExcept, Except.bind] at h
        cases hy : parseYearField year.text with
        | error e => rw [hy] at h; simp [Except.bind] at h
        | ok y =>
          rw [hy] at h
          simp only [Except.bind] at h
          cases ha : parseAreaField area.text with
          | error e => rw [ha] at h; simp [Except.bind] at h
          | ok a =>
            rw [ha] at h
            simp only [Except.bind] at h
            cases h
            have hyfacts : (y = none ↔ year.text = "н.д.") ∧
                (year.text ≠ "н.д." → y = pyInt year.text) := by
              by_cases hsen : year.text = "н.д."
              · rw [parseYearField, if_pos hsen] at hy
                cases hy
                exact ⟨⟨fun _ => hsen, fun _ => rfl⟩, fun hc => absurd hsen hc⟩
              · rw [parseYearField, if_neg hsen] at hy
                cases hpi : pyInt year.text with
                | none => rw [hpi] at hy; simp [optToExcept, Except.map] at hy
                | some z =>
                  rw [hpi] at hy
                  simp only [optToExcept, Except.map] at hy
                  cases hy
                  exact ⟨⟨fun hc => Option.noConfusion hc, fun hc => absurd hc hsen⟩,
                    fun _ => rfl⟩
            have hafacts : (a = none ↔ area.text = "н.д.") ∧
                (area.text ≠ "н.д." → a = parse_reforma_float area.text) := by
              by_cases hsen : area.text = "н.д."
              · rw [parseAreaField, if_pos hsen] at ha
                cases ha
                exact ⟨⟨fun _ => hsen, fun _ => rfl⟩, fun hc => absurd hsen hc⟩
              · rw [parseAreaField, if_neg hsen] at ha
                cases hpf : parse_reforma_float area.text with
                | none => rw [hpf] at ha; simp [optToExcept, Except.map] at ha
                | some q =>
                  rw [hpf] at ha
                  simp only [optToExcept, Except.map] at ha
                  cases ha
                  exact ⟨⟨fun hc => Option.noConfusion hc, fun hc => absurd hc hsen⟩,
                    fun _ => rfl⟩
            refine ⟨hyfacts.1, hyfacts.2, hafacts.1, hafacts.2, ?_, ?_⟩
            · by_cases hc : company.text = "Не заполнено"
              · simp [parseCompanyField, hc]
              · simp [parseCompanyField, hc]
            · intro hc
              simp [parseCompanyField, hc]

theorem exceptMapM_get {α β : Type} (f : α → Except Unit β) :
    ∀ (l : List α) (out : List β), l.mapM f = .ok out →
      ∀ (i : Nat) (x : α) (y : β), l.get? i = some x → out.get? i = some y →
        f x = .ok y := by
  intro l
  induction l with
  | nil => intro out _ i x y hx _; simp at hx
  | cons a rest ih =>
    intro out hmap i x y hx hy
    rw [List.mapM_cons] at hmap
    cases hf : f a with
    | error e => rw [hf] at hmap; simp [Bind.bind, Except.bind] at hmap
    | ok b =>
      rw [hf] at hmap
      cases hrest : rest.mapM f with
      | error e => rw [hrest] at hmap; simp [Bind.bind, Except.bind] at hmap
      | ok bs =>
        rw [hrest] at hmap
        simp only [Bind.bind, Except.bind, pure, Except.pure] at hmap
        cases hmap
        cases i with
        | zero =>
          simp only [List.get?] at hx hy
          cases hx
          cases hy
          exact hf
        | succ i =>
          simp only [List.get?] at hx hy
          exact ih bs hrest i x y hx hy

/-- C7: for every data row (header skipped) of a parsed listing page, the
yielded record has `year = None` exactly when the year text is the "н.д."
sentinel and otherwise `int(text)`; `area = None` exactly when the area text
is that sentinel and otherwise `float` of the text with spaces stripped (so
"1 234.5" parses to 1234.5 = 2469/2); `company = None` exactly when the
company text is "Не заполнено" and otherwise the text itself. -/
theorem parse_region_list_normalizes (page : ListingPage) (region : RegionRecord)
    (gd : GridDiv) (trs : List TableRow) (recs : List RegionListRecord)
    (logs : List String)
    (hg : page.grid = some gd) (ht : gd.table = some trs)
    (hparse : parse_region_list page region = .ok (recs, logs))
    (i : Nat) (address year area company : TdCell) (rec : RegionListRecord)
    (hrow : (trs.drop 1).get? i = some [address, year, area, company])
    (hrec : recs.get? i = some rec) :
    ((rec.year = none ↔ year.text = "н.д.") ∧
    (year.text ≠ "н.д." → rec.year = pyInt year.text) ∧
    (rec.area = none ↔ area.text = "н.д.") ∧
    (area.text ≠ "н.д." → rec.area = parse_reforma_float area.text) ∧
    (rec.company = none ↔ company.text = "Не заполнено") ∧
    (company.text ≠ "Не заполнено" → rec.company = some company.text)) ∧
    parse_reforma_float "1 234.5" = some ((2469 : Rat) / 2) := by
  rw [parse_region_list, hg] at hparse
  simp only [parse_region_list_grid] at hparse
  rw [ht] at hparse
  simp only [parse_region_list_table] at hparse
  cases hmap : (trs.drop 1).mapM (parseListingRow region) with
  | error e => rw [hmap] at hparse; simp [Except.map] at hparse
  | ok out =>
    rw [hmap] at hparse
    simp only [Except.map, Except.ok.injEq, Prod.mk.injEq] at hparse
    obtain ⟨h1, h2⟩ := hparse
    rw [h1] at hmap
    have hrowok := exceptMapM_get (parseListingRow region) (trs.drop 1) recs hmap
      i [address, year, area, company] rec hrow hrec
    refine ⟨parseListingRow_fields region address year area company rec hrowok, ?_⟩
    rw [show parse_reforma_float "1 234.5" = some (mkRat 1234 1 + mkRat 5 10) from rfl]
    rw [Rat.mkRat_eq_div, Rat.mkRat_eq_div]
    norm_num

set_option maxRecDepth 8000 in
/-- Witness for C7 at a one-row listing page with sentinel year, area text
"1 234.5" and sentinel company. -/
theorem parse_region_list_normalizes_witness :
    ((RegionListRecord.mk (RegionRecord.mk none "A" (some 1) 10) 123 "Addr"
        none (some (mkRat 1234 1 + mkRat 5 10)) none).year = none ↔
      (TdCell.mk none "н.д.").text = "н.д.") ∧
    ((RegionListRecord.mk (RegionRecord.mk none "A" (some 1) 10) 123 "Addr"
        none (some (mkRat 1234 1 + mkRat 5 10)) none).area = none ↔
      (TdCell.mk none "1 234.5").text = "н.д.") ∧
    ((TdCell.mk none "1 234.5").text ≠ "н.д." →
      (RegionListRecord.mk (RegionRecord.mk none "A" (some 1) 10) 123 "Addr"
        none (some (mkRat 1234 1 + mkRat 5 10)) none).area =
        parse_reforma_float (TdCell.mk none "1 234.5").text) ∧
    ((RegionListRecord.mk (RegionRecord.mk none "A" (some 1) 10) 123 "Addr"
        none (some (mkRat 1234 1 + mkRat 5 10)) none).company = none ↔
      (TdCell.mk none "Не заполнено").text = "Не заполнено") ∧
    parse_reforma_float "1 234.5" = some ((2469 : Rat) / 2) := by
  have h := parse_region_list_normalizes
    (ListingPage.mk (some (GridDiv.mk (some [[],
      [TdCell.mk (some (LinkTag.mk (some "/myhouse/profile/view/123/") "Addr")) "Addr",
        TdCell.mk none "н.д.", TdCell.mk none "1 234.5",
        TdCell.mk none "Не заполнено"]]))))
    (RegionRecord.mk none "A" (some 1) 10)
    (GridDiv.mk (some [[],
      [TdCell.mk (some (LinkTag.mk (some "/myhouse/profile/view/123/") "Addr")) "Addr",
        TdCell.mk none "н.д.", TdCell.mk none "1 234.5",
        TdCell.mk none "Не заполнено"]]))
    [[],
      [TdCell.mk (some (LinkTag.mk (some "/myhouse/profile/view/123/") "Addr")) "Addr",
        TdCell.mk none "н.д.", TdCell.mk none "1 234.5",
        TdCell.mk none "Не заполнено"]]
    [RegionListRecord.mk (RegionRecord.mk none "A" (some 1) 10) 123 "Addr"
      none (some (mkRat 1234 1 + mkRat 5 10)) none]
    [] rfl rfl rfl 0
    (TdCell.mk (some (LinkTag.mk (some "/myhouse/profile/view/123/") "Addr")) "Addr")
    (TdCell.mk none "н.д.") (TdCell.mk none "1 234.5") (TdCell.mk none "Не заполнено")
    (RegionListRecord.mk (RegionRecord.mk none "A" (some 1) 10) 123 "Addr"
      none (some (mkRat 1234 1 + mkRat 5 10)) none)
    rfl rfl
  exact ⟨h.1.1, h.1.2.2.1, h.1.2.2.2.1, h.1.2.2.2.2.1, h.2⟩

end Reforma

